import Mathlib

/-!
# Verification of the BIMUniXchange identifier reconciler and CSV exporter

Shallow embedding of the two scripts in `src/ArchUniXchange`:

* `1.ArchiCADUniqueIDAssigner.py` — the methods `analyze_existing_ids`
  (classification of existing element identifiers into absent / unique /
  duplicate) and `generate_new_ids_for_problem_elements` (type-grouped
  counter-based generation of fresh identifiers).  Elements are modelled by
  their GUID (a `Nat`), their type tag and their existing identifier string;
  the Python dictionaries and sets are modelled as lists used up to
  membership, keeping Python's deterministic insertion-order iteration.
* `2.ArchiCADMetadataExtractor.py` — the column-ordering and row-writing
  logic of `extract_to_csv` (host-supplied data is abstracted as inputs).
-/

namespace ArchUniX

/-- One input triple: an element's stable GUID, its type tag, and the
existing identifier string currently stored for it (possibly empty). -/
structure Elem where
  guid : Nat
  etype : String
  exId : String
deriving DecidableEq

/-- ASCII whitespace as recognised by Python's `str.strip()`. -/
def isSpace (ch : Char) : Bool :=
  ch == ' ' || ch == '\t' || ch == '\n' || ch == '\r' || ch == '\x0b' || ch == '\x0c'

/-- Python's `str.strip()`: drop whitespace from both ends. -/
def pyStrip (s : String) : String :=
  ⟨((s.data.dropWhile isSpace).reverse.dropWhile isSpace).reverse⟩

/-- `element_id.strip()` — the normalized identifier of an element
(line 161 of the assigner). -/
def cleanId (e : Elem) : String := pyStrip e.exId

/-- Line 158: `if not element_id or element_id.strip() == ""` — an
identifier that is empty, or empty after stripping, is absent. -/
def isAbsent (e : Elem) : Bool := cleanId e == ""

/-- The guids grouped under a normalized identifier `s` by the
`id_counts` dictionary (lines 157-164): every non-absent element whose
stripped identifier equals `s`, in input order. -/
def holders (input : List Elem) (s : String) : List Nat :=
  (input.filter (fun e => !(isAbsent e) && (cleanId e == s))).map Elem.guid

/-- `len(id_counts[s])` — how many elements carry normalized id `s`. -/
def countId (input : List Elem) (s : String) : Nat := (holders input s).length

/-- The `empty_ids` list (line 159): guids of elements with an absent id. -/
def empty_ids (input : List Elem) : List Nat :=
  (input.filter (fun e => isAbsent e)).map Elem.guid

/-- The keys of the `duplicate_ids` dictionary (lines 170-174): guids of
elements whose normalized id is carried by two or more elements. -/
def duplicate_id_guids (input : List Elem) : List Nat :=
  (input.filter (fun e => !(isAbsent e) && decide (2 ≤ countId input (cleanId e)))).map Elem.guid

/-- Line 180: `elements_needing_new_ids = set(empty_ids + list(duplicate_ids.keys()))`,
modelled as a list used up to membership. -/
def elements_needing_new_ids (input : List Elem) : List Nat :=
  empty_ids input ++ duplicate_id_guids input

/-- First-occurrence deduplication, keeping insertion order — the key
order of a Python dict built by repeated insertion. -/
def seenDedup (seen : List String) : List String → List String
  | [] => []
  | a :: l => if a ∈ seen then seenDedup seen l else a :: seenDedup (a :: seen) l

/-- The `unique_ids` set (lines 168-177): normalized identifiers carried by
exactly one element, modelled as a duplicate-free list. -/
def existing_unique_ids (input : List Elem) : List String :=
  (seenDedup [] ((input.filter (fun e => !(isAbsent e))).map cleanId)).filter
    (fun s => decide (countId input s = 1))

/-- Lines 212-215: the elements whose guid is in `elements_needing_new_ids`,
kept in input order. -/
def problem_elements (input : List Elem) : List Elem :=
  input.filter (fun e => decide (e.guid ∈ elements_needing_new_ids input))

/-- The keys of the `elements_by_type` defaultdict (lines 220-222), in
order of first appearance. -/
def typesInOrder (l : List Elem) : List String := seenDedup [] (l.map Elem.etype)

/-- The decimal digit character for `d < 10`. -/
def digitChar (d : Nat) : Char := Char.ofNat (48 + d)

/-- Fuel-driven most-significant-first decimal digits of `n`
(empty for `n = 0`); `fuel ≥ n` suffices. -/
def natStrAux : Nat → Nat → List Char
  | 0, _ => []
  | fuel + 1, n => if n = 0 then [] else natStrAux fuel (n / 10) ++ [digitChar (n % 10)]

/-- The decimal rendering of `n`, as a character list. -/
def natChars (n : Nat) : List Char := if n = 0 then ['0'] else natStrAux n n

/-- Python's `f"{c:03d}"`: the decimal rendering of `c` zero-padded on the
left to a minimum width of 3 — wider values are never truncated. -/
def pad3chars (c : Nat) : List Char :=
  (if c < 10 then ['0', '0'] else if c < 100 then ['0'] else []) ++ natChars c

/-- `f"{c:03d}"` as a string. -/
def pad3 (c : Nat) : String := ⟨pad3chars c⟩

/-- Line 245: `f"{p}-{c:03d}"` — the candidate identifier. -/
def formatId (p : String) (c : Nat) : String := ⟨p.data ++ ('-' :: pad3chars c)⟩

/-- The `while f"{p}-{c:03d}" in all_reserved_ids: c += 1` loop
(lines 237-238 and 244-248), with explicit fuel. -/
def nextFreeAux (res : List String) (p : String) : Nat → Nat → Nat
  | 0, c => c
  | fuel + 1, c => if formatId p c ∈ res then nextFreeAux res p fuel (c + 1) else c

/-- The smallest counter `C ≥ c` whose candidate is not reserved; fuel
`res.length + 1` always suffices (`nextFree_isLeastFree` below). -/
def nextFree (res : List String) (p : String) (c : Nat) : Nat :=
  nextFreeAux res p (res.length + 1) c

/-- The per-element loop of lines 240-252: for each element in order, find
the next free candidate from the current counter, record it, add it to the
reserved set, and continue from the successor counter.  Returns the new
assignments for this type together with the grown reserved set. -/
def assignGo (p : String) : List Elem → List String → Nat → List (Nat × String) × List String
  | [], res, _ => ([], res)
  | e :: rest, res, c =>
    let C := nextFree res p c
    let newId := formatId p C
    let pr := assignGo p rest (newId :: res) (C + 1)
    ((e.guid, newId) :: pr.1, pr.2)

/-- Lines 236-252 for one element type: start the counter at 1, skip to the
first free candidate (the initial `while` of lines 236-238), then run the
per-element loop. -/
def assignForType (res : List String) (p : String) (elems : List Elem) :
    List (Nat × String) × List String :=
  assignGo p elems res (nextFree res p 1)

/-- The outer loop of lines 230-252: iterate the discovered types in
insertion order, threading the reserved set through, and concatenate the
per-type assignments into the `new_id_mapping`. -/
def genTypes (pfx : String → String) : List String → List Elem → List String → List (Nat × String)
  | [], _, _ => []
  | t :: ts, probs, res =>
    let pr := assignForType res (pfx t) (probs.filter (fun e => e.etype == t))
    pr.1 ++ genTypes pfx ts probs pr.2

/-- Lines 61-78 and 231: `self.element_prefixes.get(element_type, 'GEN')`. -/
def element_pfx (t : String) : String :=
  if t = "Wall" then "W"
  else if t = "Slab" then "S"
  else if t = "Beam" then "B"
  else if t = "Column" then "C"
  else if t = "Roof" then "R"
  else if t = "CurtainWall" then "CW"
  else if t = "Stair" then "ST"
  else if t = "Railing" then "RL"
  else if t = "Door" then "D"
  else if t = "Window" then "WIN"
  else if t = "Skylight" then "SK"
  else if t = "Zone" then "Z"
  else if t = "Mesh" then "M"
  else if t = "Morph" then "MO"
  else if t = "Shell" then "SH"
  else if t = "Object" then "O"
  else "GEN"

/-- The keys of the `element_prefixes` table (lines 61-78). -/
def knownElementTypes : List String :=
  ["Wall", "Slab", "Beam", "Column", "Roof", "CurtainWall", "Stair", "Railing",
   "Door", "Window", "Skylight", "Zone", "Mesh", "Morph", "Shell", "Object"]

/-- `generate_new_ids_for_problem_elements` (lines 200-255): classify the
input, seed the reserved set with the kept unique identifiers, group the
needy elements by type and generate the `new_id_mapping`. -/
def generate_new_ids (input : List Elem) (pfx : String → String) : List (Nat × String) :=
  genTypes pfx (typesInOrder (problem_elements input)) (problem_elements input)
    (existing_unique_ids input)

/-- The two fixed leading columns of the exporter (line 254/261). -/
def fixedColumns : List String := ["Element_GUID", "Element_Type"]

/-- Lines 253-258: the `all_columns` set, seeded with the two fixed names
and grown with every key of the property and classification rows; modelled
as a duplicate-free list in insertion order. -/
def allColumns (keys : List String) : List String :=
  seenDedup [] ("Element_GUID" :: "Element_Type" :: keys)

/-- Line 261: `['Element_GUID', 'Element_Type'] + sorted(other columns)`. -/
def sortedColumns (keys : List String) : List String :=
  "Element_GUID" :: "Element_Type" ::
    List.insertionSort (· ≤ ·)
      ((allColumns keys).filter (fun c => decide (c ∉ fixedColumns)))

/-- Line 278: `row_data.get(col, "")`. -/
def lookupDefault (row : List (String × String)) (c : String) : String :=
  match row.find? (fun pr => pr.1 == c) with
  | some pr => pr.2
  | none => ""

/-- Lines 268-280: one output row per element, each row holding a value
for every column (defaulting to `""`). -/
def csvRows (guids : List String) (cols : List String)
    (dataOf : String → List (String × String)) : List (List String) :=
  guids.map (fun g => cols.map (fun c => lookupDefault (dataOf g) c))

/-- `C` is the least counter at or above `c` whose candidate identifier is
not reserved: the value the `while` loops of lines 236-248 compute. -/
def IsLeastFreeFrom (res : List String) (p : String) (c C : Nat) : Prop :=
  c ≤ C ∧ formatId p C ∉ res ∧ ∀ j, c ≤ j → j < C → formatId p j ∈ res

/-- The worked example of the specification (§8). -/
def exInput : List Elem :=
  [⟨1, "Wall", "W-001"⟩, ⟨2, "Wall", "W-001"⟩, ⟨3, "Wall", "W-005"⟩, ⟨4, "Beam", ""⟩]

/-! ## Decimal rendering: value recovery, injectivity, lengths -/

/-- The digit value of a character. -/
def charVal (ch : Char) : Nat := ch.toNat - 48

/-- Reading a digit string back as a number (leading zeros ignored). -/
def strVal (l : List Char) : Nat := l.foldl (fun a ch => 10 * a + charVal ch) 0

theorem strVal_from (a : Nat) (l : List Char) :
    l.foldl (fun a ch => 10 * a + charVal ch) a =
      a * 10 ^ l.length + strVal l := by
  induction l generalizing a with
  | nil => simp [strVal]
  | cons c l ih =>
    simp only [List.foldl_cons, strVal, List.length_cons, pow_succ]
    rw [ih (10 * a + charVal c), ih (10 * 0 + charVal c)]
    ring

theorem strVal_append (l₁ l₂ : List Char) :
    strVal (l₁ ++ l₂) = strVal l₁ * 10 ^ l₂.length + strVal l₂ := by
  simp only [strVal, List.foldl_append]
  exact strVal_from _ l₂

theorem charVal_digitChar {d : Nat} (h : d < 10) : charVal (digitChar d) = d := by
  interval_cases d <;> decide

theorem strVal_natStrAux : ∀ fuel n, n ≤ fuel → strVal (natStrAux fuel n) = n := by
  intro fuel
  induction fuel with
  | zero => intro n hn; interval_cases n; simp [natStrAux, strVal]
  | succ fuel ih =>
    intro n hn
    by_cases h0 : n = 0
    · simp [natStrAux, h0, strVal]
    · have hdiv : n / 10 ≤ fuel := by
        have h1 : n / 10 < n := Nat.div_lt_self (Nat.pos_of_ne_zero h0) (by omega)
        omega
      simp only [natStrAux, h0, if_false]
      rw [strVal_append, ih _ hdiv]
      simp [strVal, charVal_digitChar (Nat.mod_lt n (by omega))]
      omega

theorem strVal_natChars (n : Nat) : strVal (natChars n) = n := by
  by_cases h0 : n = 0
  · simp [natChars, h0, strVal, charVal]
  · simp only [natChars, h0, if_false]
    exact strVal_natStrAux n n le_rfl

theorem strVal_cons_zero (l : List Char) : strVal ('0' :: l) = strVal l := by
  simp [strVal, List.foldl_cons, charVal]

theorem strVal_pad3chars (c : Nat) : strVal (pad3chars c) = c := by
  unfold pad3chars
  by_cases h1 : c < 10
  · simp only [h1, if_true, List.cons_append, List.nil_append]
    rw [strVal_cons_zero, strVal_cons_zero, strVal_natChars]
  · by_cases h2 : c < 100
    · simp only [h1, if_false, h2, if_true, List.cons_append, List.nil_append]
      rw [strVal_cons_zero, strVal_natChars]
    · simp only [h1, if_false, h2, List.nil_append]
      exact strVal_natChars c

theorem pad3chars_injective : Function.Injective pad3chars := by
  intro x y h
  have := strVal_pad3chars x
  rw [h, strVal_pad3chars] at this
  omega

theorem pad3_injective : Function.Injective pad3 := by
  intro x y h
  exact pad3chars_injective (congrArg String.data h)

theorem formatId_inj (p : String) : Function.Injective (formatId p) := by
  intro x y h
  have hdata : p.data ++ ('-' :: pad3chars x) = p.data ++ ('-' :: pad3chars y) :=
    congrArg String.data h
  have := List.append_cancel_left hdata
  exact pad3chars_injective (List.cons_injective this)

theorem natStrAux_length (k : Nat) :
    ∀ fuel n, 10 ^ k ≤ n → n ≤ fuel → k + 1 ≤ (natStrAux fuel n).length := by
  induction k with
  | zero =>
    intro fuel n hk hn
    match fuel with
    | 0 => omega
    | fuel + 1 =>
      have h1 : (1:Nat) ≤ n := by simpa using hk
      have h0 : n ≠ 0 := by omega
      simp [natStrAux, h0]
  | succ k ih =>
    intro fuel n hk hn
    match fuel with
    | 0 =>
      exfalso
      have : 0 < 10 ^ (k + 1) := Nat.pos_pow_of_pos _ (by omega)
      omega
    | fuel + 1 =>
      have h0 : n ≠ 0 := by
        have : 0 < 10 ^ (k + 1) := Nat.pos_pow_of_pos _ (by omega)
        omega
      simp only [natStrAux, h0, if_false, List.length_append, List.length_cons,
        List.length_nil]
      have hdiv : 10 ^ k ≤ n / 10 := by
        rw [Nat.le_div_iff_mul_le (by omega)]
        calc 10 ^ k * 10 = 10 ^ (k + 1) := by ring
        _ ≤ n := hk
      have hfuel : n / 10 ≤ fuel := by
        have : n / 10 < n := Nat.div_lt_self (Nat.pos_of_ne_zero h0) (by omega)
        omega
      have := ih fuel (n / 10) hdiv hfuel
      omega

theorem natChars_length_of_ge (k : Nat) {n : Nat} (h : 10 ^ k ≤ n) :
    k + 1 ≤ (natChars n).length := by
  have h0 : n ≠ 0 := by
    have : 0 < 10 ^ k := Nat.pos_pow_of_pos _ (by omega)
    omega
  simp only [natChars, h0, if_false]
  exact natStrAux_length k n n h le_rfl

theorem natChars_length_pos (n : Nat) : 1 ≤ (natChars n).length := by
  by_cases h0 : n = 0
  · simp [natChars, h0]
  · exact natChars_length_of_ge 0 (by omega)

theorem pad3chars_length_ge_three (c : Nat) : 3 ≤ (pad3chars c).length := by
  unfold pad3chars
  by_cases h1 : c < 10
  · have := natChars_length_pos c
    simp only [h1, if_true, List.length_append]
    simp only [List.length_cons, List.length_nil]
    omega
  · by_cases h2 : c < 100
    · have : (10:Nat) ^ 1 ≤ c := by simpa using h1
      have := natChars_length_of_ge 1 this
      simp only [h1, if_false, h2, if_true, List.length_append, List.length_cons,
        List.length_nil]
      omega
    · have : (10:Nat) ^ 2 ≤ c := by
        have : (100:Nat) ≤ c := by omega
        simpa using this
      have := natChars_length_of_ge 2 this
      simp only [h1, if_false, h2, List.nil_append]
      omega

theorem pad3chars_of_ge_1000 {c : Nat} (h : 1000 ≤ c) :
    pad3chars c = natChars c ∧ 4 ≤ (pad3chars c).length := by
  have h1 : ¬ c < 10 := by omega
  have h2 : ¬ c < 100 := by omega
  constructor
  · simp [pad3chars, h1, h2]
  · have : (10:Nat) ^ 3 ≤ c := by
      have : (1000:Nat) ≤ c := h
      simpa using this
    have := natChars_length_of_ge 3 this
    simp only [pad3chars, h1, if_false, h2, List.nil_append]
    omega

/-! ## The counter-advancing search loop -/

theorem nextFreeAux_le (res : List String) (p : String) :
    ∀ fuel c, c ≤ nextFreeAux res p fuel c := by
  intro fuel
  induction fuel with
  | zero => intro c; simp [nextFreeAux]
  | succ fuel ih =>
    intro c
    simp only [nextFreeAux]
    by_cases h : formatId p c ∈ res
    · simp only [h, if_true]
      have := ih (c + 1)
      omega
    · simp [h]

theorem nextFreeAux_hits (res : List String) (p : String) :
    ∀ fuel c j, c ≤ j → j < nextFreeAux res p fuel c → formatId p j ∈ res := by
  intro fuel
  induction fuel with
  | zero => intro c j hcj hj; simp [nextFreeAux] at hj; omega
  | succ fuel ih =>
    intro c j hcj hj
    simp only [nextFreeAux] at hj
    by_cases h : formatId p c ∈ res
    · simp only [h, if_true] at hj
      rcases Nat.eq_or_lt_of_le hcj with heq | hlt
      · exact heq ▸ h
      · exact ih (c + 1) j hlt hj
    · simp [h] at hj; omega

theorem nextFreeAux_free (res : List String) (p : String) :
    ∀ fuel c, (∃ k, k < fuel ∧ formatId p (c + k) ∉ res) →
      formatId p (nextFreeAux res p fuel c) ∉ res := by
  intro fuel
  induction fuel with
  | zero => rintro c ⟨k, hk, _⟩; omega
  | succ fuel ih =>
    rintro c ⟨k, hk, hfree⟩
    simp only [nextFreeAux]
    by_cases h : formatId p c ∈ res
    · simp only [h, if_true]
      apply ih
      have hk0 : k ≠ 0 := by
        intro h0
        rw [h0, Nat.add_zero] at hfree
        exact hfree h
      refine ⟨k - 1, by omega, ?_⟩
      have : c + 1 + (k - 1) = c + k := by omega
      rw [this]
      exact hfree
    · rw [if_neg h]
      exact h

theorem free_exists (res : List String) (p : String) (c : Nat) :
    ∃ k, k < res.length + 1 ∧ formatId p (c + k) ∉ res := by
  by_contra hall
  push_neg at hall
  set L := (List.range (res.length + 1)).map (fun k => formatId p (c + k)) with hL
  have hnodup : L.Nodup := by
    refine List.Nodup.map ?_ (List.nodup_range _)
    intro x y hxy
    have := formatId_inj p hxy
    omega
  have hsub : L ⊆ res := by
    intro s hs
    rw [hL, List.mem_map] at hs
    obtain ⟨k, hk, rfl⟩ := hs
    exact hall k (List.mem_range.mp hk)
  have hlen : L.length ≤ res.length := (hnodup.subperm hsub).length_le
  rw [hL, List.length_map, List.length_range] at hlen
  omega

theorem nextFree_isLeastFree (res : List String) (p : String) (c : Nat) :
    IsLeastFreeFrom res p c (nextFree res p c) := by
  refine ⟨nextFreeAux_le res p _ c, ?_, fun j hcj hj => nextFreeAux_hits res p _ c j hcj hj⟩
  exact nextFreeAux_free res p _ c (free_exists res p c)

theorem nextFree_of_free (res : List String) (p : String) {c : Nat}
    (h : formatId p c ∉ res) : nextFree res p c = c := by
  simp [nextFree, nextFreeAux, h]

/-! ## Dedup and classification lemmas -/

theorem mem_seenDedup (a : String) :
    ∀ (l : List String) (seen : List String), a ∈ seenDedup seen l ↔ a ∈ l ∧ a ∉ seen := by
  intro l
  induction l with
  | nil => intro seen; simp [seenDedup]
  | cons b l ih =>
    intro seen
    simp only [seenDedup]
    by_cases hb : b ∈ seen
    · rw [if_pos hb, ih]
      simp only [List.mem_cons]
      by_cases hab : a = b
      · subst hab; tauto
      · tauto
    · rw [if_neg hb]
      simp only [List.mem_cons, ih]
      by_cases hab : a = b
      · subst hab; tauto
      · tauto

theorem nodup_seenDedup : ∀ (l : List String) (seen : List String), (seenDedup seen l).Nodup := by
  intro l
  induction l with
  | nil => intro seen; simp [seenDedup]
  | cons b l ih =>
    intro seen
    simp only [seenDedup]
    by_cases hb : b ∈ seen
    · rw [if_pos hb]; exact ih seen
    · rw [if_neg hb]
      refine List.nodup_cons.mpr ⟨?_, ih (b :: seen)⟩
      intro hc
      exact ((mem_seenDedup b l (b :: seen)).mp hc).2 (List.mem_cons_self b seen)

theorem countId_pos_iff (input : List Elem) (s : String) :
    0 < countId input s ↔ ∃ e ∈ input, isAbsent e = false ∧ cleanId e = s := by
  simp only [countId, holders]
  rw [List.length_pos_iff_exists_mem]
  constructor
  · rintro ⟨g, hg⟩
    rw [List.mem_map] at hg
    obtain ⟨e, he, _⟩ := hg
    rw [List.mem_filter] at he
    obtain ⟨hin, hcond⟩ := he
    simp only [Bool.and_eq_true, Bool.not_eq_true', beq_iff_eq] at hcond
    exact ⟨e, hin, hcond.1, hcond.2⟩
  · rintro ⟨e, hin, habs, hclean⟩
    refine ⟨e.guid, List.mem_map.mpr ⟨e, ?_, rfl⟩⟩
    rw [List.mem_filter]
    exact ⟨hin, by simp [habs, hclean]⟩

theorem mem_existing_unique_ids (input : List Elem) (s : String) :
    s ∈ existing_unique_ids input ↔ countId input s = 1 := by
  simp only [existing_unique_ids, List.mem_filter, decide_eq_true_eq]
  constructor
  · rintro ⟨_, h⟩; exact h
  · intro h
    refine ⟨?_, h⟩
    rw [mem_seenDedup]
    refine ⟨?_, List.not_mem_nil s⟩
    have hpos : 0 < countId input s := by omega
    obtain ⟨e, hin, habs, hclean⟩ := (countId_pos_iff input s).mp hpos
    rw [List.mem_map]
    exact ⟨e, List.mem_filter.mpr ⟨hin, by simp [habs]⟩, hclean⟩

theorem nodup_existing_unique_ids (input : List Elem) :
    (existing_unique_ids input).Nodup :=
  (nodup_seenDedup _ _).filter _

/-! ## The generation loop invariants -/

theorem assignGo_spec (p : String) :
    ∀ (elems : List Elem) (res : List String) (c : Nat),
      ((assignGo p elems res c).1.map Prod.fst = elems.map Elem.guid) ∧
      (∀ s, s ∈ (assignGo p elems res c).2 ↔
        s ∈ (assignGo p elems res c).1.map Prod.snd ∨ s ∈ res) ∧
      ((assignGo p elems res c).1.map Prod.snd).Nodup ∧
      (∀ v ∈ (assignGo p elems res c).1.map Prod.snd, v ∉ res) := by
  intro elems
  induction elems with
  | nil =>
    intro res c
    simp [assignGo]
  | cons e rest ih =>
    intro res c
    obtain ⟨ihkeys, ihres, ihnodup, ihfresh⟩ :=
      ih (formatId p (nextFree res p c) :: res) (nextFree res p c + 1)
    have hfree : formatId p (nextFree res p c) ∉ res :=
      (nextFree_isLeastFree res p c).2.1
    simp only [assignGo, List.map_cons]
    refine ⟨by rw [ihkeys], ?_, ?_, ?_⟩
    · intro s
      rw [ihres s]
      simp only [List.mem_cons]
      tauto
    · refine List.nodup_cons.mpr ⟨?_, ihnodup⟩
      intro hc
      exact ihfresh _ hc (List.mem_cons_self _ _)
    · intro v hv
      rcases List.mem_cons.mp hv with rfl | hv
      · exact hfree
      · intro hvres
        exact ihfresh v hv (List.mem_cons_of_mem _ hvres)

theorem genTypes_spec (pfx : String → String) :
    ∀ (ts : List String) (probs : List Elem) (res : List String),
      ((genTypes pfx ts probs res).map Prod.snd).Nodup ∧
      (∀ v ∈ (genTypes pfx ts probs res).map Prod.snd, v ∉ res) ∧
      (∀ e ∈ probs, e.etype ∈ ts → e.guid ∈ (genTypes pfx ts probs res).map Prod.fst) ∧
      (∀ g ∈ (genTypes pfx ts probs res).map Prod.fst,
        ∃ e ∈ probs, e.guid = g ∧ e.etype ∈ ts) := by
  intro ts
  induction ts with
  | nil =>
    intro probs res
    simp [genTypes]
  | cons t ts ih =>
    intro probs res
    set elems₁ := probs.filter (fun e => e.etype == t) with helems
    obtain ⟨hkeys₁, hres₁, hnodup₁, hfresh₁⟩ :=
      assignGo_spec (pfx t) elems₁ res (nextFree res (pfx t) 1)
    set pr := assignForType res (pfx t) elems₁ with hpr
    have hprdef : pr = assignGo (pfx t) elems₁ res (nextFree res (pfx t) 1) := rfl
    obtain ⟨ihnodup, ihfresh, ihcover, ihorigin⟩ := ih probs pr.2
    have hgen : genTypes pfx (t :: ts) probs res = pr.1 ++ genTypes pfx ts probs pr.2 := by
      simp only [genTypes]
    rw [hprdef] at hpr
    constructor
    · rw [hgen, List.map_append]
      refine List.Nodup.append ?_ ihnodup ?_
      · rw [hprdef]; exact hnodup₁
      · rw [List.disjoint_left]
        intro a ha
        have hares : a ∈ pr.2 := by
          rw [hprdef] at ha ⊢
          exact (hres₁ a).mpr (Or.inl ha)
        intro ha2
        exact ihfresh a ha2 hares
    constructor
    · rw [hgen, List.map_append]
      intro v hv
      rcases List.mem_append.mp hv with hv | hv
      · rw [hprdef] at hv
        exact hfresh₁ v hv
      · intro hvres
        have : v ∈ pr.2 := by
          rw [hprdef]
          exact (hres₁ v).mpr (Or.inr hvres)
        exact ihfresh v hv this
    constructor
    · intro e he htype
      rw [hgen, List.map_append, List.mem_append]
      rcases List.mem_cons.mp htype with heq | hts
      · left
        rw [hprdef, hkeys₁]
        refine List.mem_map.mpr ⟨e, ?_, rfl⟩
        rw [helems, List.mem_filter]
        exact ⟨he, by simp [heq]⟩
      · right
        exact ihcover e he hts
    · intro g hg
      rw [hgen, List.map_append, List.mem_append] at hg
      rcases hg with hg | hg
      · rw [hprdef, hkeys₁] at hg
        obtain ⟨e, he, rfl⟩ := List.mem_map.mp hg
        rw [helems, List.mem_filter] at he
        refine ⟨e, he.1, rfl, ?_⟩
        have : e.etype = t := by simpa using he.2
        simp [this]
      · obtain ⟨e, he, hge, hts⟩ := ihorigin g hg
        exact ⟨e, he, hge, List.mem_cons_of_mem _ hts⟩

/-! ## Claim-level helper lemmas -/

theorem countId_empty_string (input : List Elem) : countId input "" = 0 := by
  simp only [countId, holders]
  have : input.filter (fun e => !isAbsent e && (cleanId e == "")) = [] := by
    rw [List.filter_eq_nil_iff]
    intro e _
    simp only [Bool.and_eq_true, Bool.not_eq_true', beq_iff_eq, isAbsent, beq_eq_false_iff_ne,
      ne_eq, not_and]
    intro hne hc
    exact hne hc
  rw [this]
  rfl

theorem isAbsent_iff (e : Elem) : isAbsent e = true ↔ cleanId e = "" := by
  simp [isAbsent]

theorem mem_needy_of (input : List Elem) (e : Elem) (hin : e ∈ input)
    (h : cleanId e = "" ∨ 2 ≤ countId input (cleanId e)) :
    e.guid ∈ elements_needing_new_ids input := by
  rcases h with habs | hdup
  · apply List.mem_append_left
    exact List.mem_map.mpr ⟨e, List.mem_filter.mpr ⟨hin, (isAbsent_iff e).mpr habs⟩, rfl⟩
  · apply List.mem_append_right
    have habs : isAbsent e = false := by
      rw [Bool.eq_false_iff, ne_eq, isAbsent_iff]
      intro hc
      rw [hc, countId_empty_string] at hdup
      omega
    exact List.mem_map.mpr ⟨e, List.mem_filter.mpr ⟨hin, by simp [habs, hdup]⟩, rfl⟩

theorem needy_elem_of_mem (input : List Elem) (g : Nat)
    (h : g ∈ elements_needing_new_ids input) :
    ∃ e ∈ input, e.guid = g ∧ (cleanId e = "" ∨ 2 ≤ countId input (cleanId e)) := by
  rcases List.mem_append.mp h with h | h
  · obtain ⟨e, he, rfl⟩ := List.mem_map.mp h
    obtain ⟨hin, hcond⟩ := List.mem_filter.mp he
    exact ⟨e, hin, rfl, Or.inl ((isAbsent_iff e).mp hcond)⟩
  · obtain ⟨e, he, rfl⟩ := List.mem_map.mp h
    obtain ⟨hin, hcond⟩ := List.mem_filter.mp he
    simp only [Bool.and_eq_true, decide_eq_true_eq] at hcond
    exact ⟨e, hin, rfl, Or.inr hcond.2⟩

theorem not_needy_of_unique (input : List Elem) (e : Elem) (hin : e ∈ input)
    (hnd : (input.map Elem.guid).Nodup)
    (huniq : countId input (cleanId e) = 1) :
    e.guid ∉ elements_needing_new_ids input := by
  intro hneedy
  obtain ⟨e', hin', hgid, hcond⟩ := needy_elem_of_mem input e.guid hneedy
  have : e' = e := List.inj_on_of_nodup_map hnd hin' hin hgid
  subst this
  rcases hcond with habs | hdup
  · rw [habs, countId_empty_string] at huniq
    omega
  · omega

theorem mem_problem_elements (input : List Elem) (e : Elem) :
    e ∈ problem_elements input ↔
      e ∈ input ∧ e.guid ∈ elements_needing_new_ids input := by
  simp [problem_elements, List.mem_filter]

theorem nodup_final_ids (input : List Elem) (pfx : String → String) :
    (existing_unique_ids input ++ (generate_new_ids input pfx).map Prod.snd).Nodup := by
  obtain ⟨hnodup, hfresh, -, -⟩ :=
    genTypes_spec pfx (typesInOrder (problem_elements input)) (problem_elements input)
      (existing_unique_ids input)
  refine List.Nodup.append (nodup_existing_unique_ids input) hnodup ?_
  rw [List.disjoint_left]
  intro a ha ha2
  exact hfresh a ha2 ha

theorem generate_keys_needy (input : List Elem) (pfx : String → String) (g : Nat)
    (h : g ∈ (generate_new_ids input pfx).map Prod.fst) :
    g ∈ elements_needing_new_ids input := by
  obtain ⟨-, -, -, horigin⟩ :=
    genTypes_spec pfx (typesInOrder (problem_elements input)) (problem_elements input)
      (existing_unique_ids input)
  obtain ⟨e, he, rfl, -⟩ := horigin g h
  exact ((mem_problem_elements input e).mp he).2

theorem generate_keys_cover (input : List Elem) (pfx : String → String) (e : Elem)
    (hin : e ∈ input) (hneedy : e.guid ∈ elements_needing_new_ids input) :
    e.guid ∈ (generate_new_ids input pfx).map Prod.fst := by
  obtain ⟨-, -, hcover, -⟩ :=
    genTypes_spec pfx (typesInOrder (problem_elements input)) (problem_elements input)
      (existing_unique_ids input)
  have hprob : e ∈ problem_elements input := (mem_problem_elements input e).mpr ⟨hin, hneedy⟩
  refine hcover e hprob ?_
  rw [typesInOrder, mem_seenDedup]
  exact ⟨List.mem_map.mpr ⟨e, hprob, rfl⟩, List.not_mem_nil _⟩

theorem generate_single_absent (t s : String) (habs : pyStrip s = "")
    (pfx : String → String) :
    generate_new_ids [⟨1, t, s⟩] pfx = [(1, formatId (pfx t) 1)] := by
  have habs' : isAbsent ⟨1, t, s⟩ = true := by
    rw [isAbsent_iff]
    exact habs
  have hprob : problem_elements [⟨1, t, s⟩] = [⟨1, t, s⟩] := by
    simp [problem_elements, elements_needing_new_ids, empty_ids, duplicate_id_guids, habs']
  have huniq : existing_unique_ids [⟨1, t, s⟩] = [] := by
    simp [existing_unique_ids, habs', seenDedup]
  rw [generate_new_ids, hprob, huniq]
  have htypes : typesInOrder [(⟨1, t, s⟩ : Elem)] = [t] := by
    simp [typesInOrder, seenDedup]
  rw [htypes]
  have hfilter : List.filter (fun e => e.etype == t) [(⟨1, t, s⟩ : Elem)] = [⟨1, t, s⟩] := by
    simp
  have hnf : nextFree [] (pfx t) 1 = 1 := nextFree_of_free [] (pfx t) (List.not_mem_nil _)
  simp [genTypes, hfilter, assignForType, hnf, assignGo, nextFree_of_free]

theorem generate_single_present (t s : String) (habs : pyStrip s ≠ "")
    (pfx : String → String) :
    generate_new_ids [⟨1, t, s⟩] pfx = [] := by
  have habs' : isAbsent ⟨1, t, s⟩ = false := by
    rw [Bool.eq_false_iff, ne_eq, isAbsent_iff]
    exact habs
  have hcount : countId [⟨1, t, s⟩] (cleanId ⟨1, t, s⟩) = 1 := by
    simp [countId, holders, habs']
  have hprob : problem_elements [⟨1, t, s⟩] = [] := by
    simp [problem_elements, elements_needing_new_ids, empty_ids, duplicate_id_guids,
      habs', hcount]
  rw [generate_new_ids, hprob]
  simp [typesInOrder, seenDedup, genTypes]

/-! ## The claims -/

/-- C1: for every input collection, after generation the set of all final
identifiers — the kept unique existing identifiers together with the newly
assigned identifiers — contains no duplicates; each assigned value is
absent from the reserved set at assignment time and all assigned values
are mutually distinct. -/
theorem claim1_final_ids_nodup (input : List Elem) :
    (existing_unique_ids input ++ (generate_new_ids input element_pfx).map Prod.snd).Nodup :=
  nodup_final_ids input element_pfx

/-- C2: for a type with prefix `p`, the generator processes that type's
needy elements in input order with a counter starting at 1: each element
receives the candidate `p-{C zero-padded to 3 digits}` for the least `C`
at or above the current counter whose candidate is unreserved, that
candidate joins the reserved set, and the next element of the same type
continues from `C + 1` rather than resetting.  The last conjunct shows the
per-type loop inside the whole generator. -/
theorem claim2_per_type_generation (res : List String) (p t : String)
    (pfx : String → String) (ts : List String) (probs : List Elem)
    (e : Elem) (rest : List Elem) (c : Nat) :
    IsLeastFreeFrom res p c (nextFree res p c) ∧
    assignGo p (e :: rest) res c =
      ((e.guid, formatId p (nextFree res p c)) ::
        (assignGo p rest (formatId p (nextFree res p c) :: res) (nextFree res p c + 1)).1,
       (assignGo p rest (formatId p (nextFree res p c) :: res) (nextFree res p c + 1)).2) ∧
    assignForType res p (e :: rest) =
      ((e.guid, formatId p (nextFree res p 1)) ::
        (assignGo p rest (formatId p (nextFree res p 1) :: res) (nextFree res p 1 + 1)).1,
       (assignGo p rest (formatId p (nextFree res p 1) :: res) (nextFree res p 1 + 1)).2) ∧
    genTypes pfx (t :: ts) probs res =
      (assignForType res (pfx t) (probs.filter (fun x => x.etype == t))).1 ++
        genTypes pfx ts probs
          (assignForType res (pfx t) (probs.filter (fun x => x.etype == t))).2 := by
  refine ⟨nextFree_isLeastFree res p c, rfl, ?_, rfl⟩
  unfold assignForType
  have hidem : nextFree res p (nextFree res p 1) = nextFree res p 1 :=
    nextFree_of_free res p (nextFree_isLeastFree res p 1).2.1
  simp only [assignGo, hidem]

/-- C3: on `[(E1,Wall,"W-001"), (E2,Wall,"W-001"), (E3,Wall,"W-005"), (E4,Beam,"")]`,
E3 receives no new identifier, "W-001" is not reserved (it is a
duplicate), one of E1/E2 gets "W-001" and the other "W-002", and E4 gets
"B-001". -/
theorem claim3_worked_example :
    (∀ pr ∈ generate_new_ids exInput element_pfx, pr.1 ≠ 3) ∧
    "W-001" ∉ existing_unique_ids exInput ∧
    ((1, "W-001") ∈ generate_new_ids exInput element_pfx ∧
       (2, "W-002") ∈ generate_new_ids exInput element_pfx ∨
     (1, "W-002") ∈ generate_new_ids exInput element_pfx ∧
       (2, "W-001") ∈ generate_new_ids exInput element_pfx) ∧
    (4, "B-001") ∈ generate_new_ids exInput element_pfx := by
  decide

/-- C4: classification trims surrounding whitespace, treats an identifier
empty after trimming as absent (needing a new identifier), marks every
holder of an identifier carried by two or more elements as needing a new
identifier, and classifies an identifier carried by exactly one element as
unique — kept, and not needing a new identifier. -/
theorem claim4_classification (input : List Elem) (e : Elem) (hin : e ∈ input)
    (hnd : (input.map Elem.guid).Nodup) :
    cleanId e = pyStrip e.exId ∧
    (cleanId e = "" → e.guid ∈ elements_needing_new_ids input) ∧
    (2 ≤ countId input (cleanId e) → e.guid ∈ elements_needing_new_ids input) ∧
    (countId input (cleanId e) = 1 →
      cleanId e ∈ existing_unique_ids input ∧
        e.guid ∉ elements_needing_new_ids input) := by
  refine ⟨rfl, ?_, ?_, ?_⟩
  · intro habs
    exact mem_needy_of input e hin (Or.inl habs)
  · intro hdup
    exact mem_needy_of input e hin (Or.inr hdup)
  · intro huniq
    exact ⟨(mem_existing_unique_ids input (cleanId e)).mpr huniq,
      not_needy_of_unique input e hin hnd huniq⟩

/-- Witness for C4 at the worked example: E3's identifier "W-005" is
unique, so it is kept and E3 needs no new identifier. -/
theorem claim4_witness :
    cleanId ⟨3, "Wall", "W-005"⟩ ∈ existing_unique_ids exInput ∧
    (3 : Nat) ∉ elements_needing_new_ids exInput := by
  have h := claim4_classification exInput ⟨3, "Wall", "W-005"⟩ (by decide) (by decide)
  exact ⟨(h.2.2.2 (by decide)).1, (h.2.2.2 (by decide)).2⟩

/-- C5: an element whose trimmed existing identifier is unique across the
whole input never appears in the assignment mapping. -/
theorem claim5_unique_left_untouched (input : List Elem) (e : Elem) (hin : e ∈ input)
    (hnd : (input.map Elem.guid).Nodup)
    (huniq : countId input (cleanId e) = 1) :
    ∀ pr ∈ generate_new_ids input element_pfx, pr.1 ≠ e.guid := by
  intro pr hpr heq
  have hkey : e.guid ∈ (generate_new_ids input element_pfx).map Prod.fst :=
    List.mem_map.mpr ⟨pr, hpr, heq⟩
  exact not_needy_of_unique input e hin hnd huniq
    (generate_keys_needy input element_pfx e.guid hkey)

/-- Witness for C5: in the worked example E3 ("W-005", unique) gets no
entry in the mapping. -/
theorem claim5_witness :
    ((1 : Nat), "W-001").1 ≠ (⟨3, "Wall", "W-005"⟩ : Elem).guid :=
  claim5_unique_left_untouched exInput ⟨3, "Wall", "W-005"⟩ (by decide) (by decide) (by decide)
    (1, "W-001") (by decide)

/-- C6: every element with an absent identifier or sharing a duplicated
identifier receives an entry in the mapping, and its assigned value occurs
exactly once in the final identifier set (kept uniques together with all
assigned values). -/
theorem claim6_needy_get_fresh_ids (input : List Elem) (e : Elem) (hin : e ∈ input)
    (hneedy : cleanId e = "" ∨ 2 ≤ countId input (cleanId e)) :
    ∃ v, (e.guid, v) ∈ generate_new_ids input element_pfx ∧
      (existing_unique_ids input ++
        (generate_new_ids input element_pfx).map Prod.snd).count v = 1 := by
  have hkey : e.guid ∈ (generate_new_ids input element_pfx).map Prod.fst :=
    generate_keys_cover input element_pfx e hin (mem_needy_of input e hin hneedy)
  obtain ⟨pr, hpr, hfst⟩ := List.mem_map.mp hkey
  refine ⟨pr.2, ?_, ?_⟩
  · have hpr2 : pr = (e.guid, pr.2) := by rw [← hfst]
    rw [← hpr2]
    exact hpr
  · exact List.count_eq_one_of_mem (nodup_final_ids input element_pfx)
      (List.mem_append_right _ (List.mem_map.mpr ⟨pr, hpr, rfl⟩))

/-- Witness for C6: in the worked example E4 (absent identifier) is
assigned a value occurring exactly once among the final identifiers. -/
theorem claim6_witness :
    ∃ v, ((4 : Nat), v) ∈ generate_new_ids exInput element_pfx ∧
      (existing_unique_ids exInput ++
        (generate_new_ids exInput element_pfx).map Prod.snd).count v = 1 :=
  claim6_needy_get_fresh_ids exInput ⟨4, "Beam", ""⟩ (by decide) (Or.inl (by decide))

/-- C7: the counter is zero-padded to at least 3 digits; beyond 999 the
numeric suffix is rendered untruncated with 4 or more digits (e.g.
`W-1000`), and padding is injective, so 1000+ same-type elements still get
distinct identifiers. -/
theorem claim7_padding_untruncated (c : Nat) (h : 1000 ≤ c) :
    (∀ n, 3 ≤ (pad3chars n).length) ∧
    4 ≤ (pad3chars c).length ∧
    pad3chars c = natChars c ∧
    Function.Injective pad3 ∧
    formatId "W" 1000 = "W-1000" := by
  obtain ⟨heq, hlen⟩ := pad3chars_of_ge_1000 h
  exact ⟨pad3chars_length_ge_three, hlen, heq, pad3_injective, by decide⟩

/-- Witness for C7 at `c = 1000`. -/
theorem claim7_witness :
    4 ≤ (pad3chars 1000).length ∧ pad3chars 1000 = natChars 1000 ∧
    formatId "W" 1000 = "W-1000" := by
  have h := claim7_padding_untruncated 1000 (by decide)
  exact ⟨h.2.1, h.2.2.1, h.2.2.2.2⟩

/-- C8: generation is deterministic — the same input order of triples and
the same type-to-prefix table yield the identical assignment mapping. -/
theorem claim8_deterministic (input₁ input₂ : List Elem)
    (pfx₁ pfx₂ : String → String) (hin : input₁ = input₂)
    (hpfx : ∀ t, pfx₁ t = pfx₂ t) :
    generate_new_ids input₁ pfx₁ = generate_new_ids input₂ pfx₂ := by
  subst hin
  rw [funext hpfx]

/-- Witness for C8: two runs on the worked example agree. -/
theorem claim8_witness :
    generate_new_ids exInput element_pfx = generate_new_ids exInput element_pfx :=
  claim8_deterministic exInput exInput element_pfx element_pfx rfl (fun _ => rfl)

/-- C9: classification and generation are total — any identifier string
and any type tag are accepted; a type outside the prefix table degrades to
the fallback prefix "GEN" instead of failing. -/
theorem claim9_total_gen_fallback (t s : String) (h : t ∉ knownElementTypes) :
    element_pfx t = "GEN" ∧
    (generate_new_ids [⟨1, t, s⟩] element_pfx = [] ∨
     generate_new_ids [⟨1, t, s⟩] element_pfx = [(1, "GEN-001")]) := by
  have hGEN : element_pfx t = "GEN" := by
    simp only [knownElementTypes, List.mem_cons, List.not_mem_nil, or_false] at h
    push_neg at h
    obtain ⟨h1, h2, h3, h4, h5, h6, h7, h8, h9, h10, h11, h12, h13, h14, h15, h16⟩ := h
    simp [element_pfx, h1, h2, h3, h4, h5, h6, h7, h8, h9, h10, h11, h12, h13, h14, h15, h16]
  refine ⟨hGEN, ?_⟩
  by_cases habs : pyStrip s = ""
  · right
    rw [generate_single_absent t s habs element_pfx, hGEN]
    decide
  · left
    exact generate_single_present t s habs element_pfx

/-- Witness for C9 at the unknown type tag "Widget". -/
theorem claim9_witness :
    element_pfx "Widget" = "GEN" ∧
    (generate_new_ids [⟨1, "Widget", ""⟩] element_pfx = [] ∨
     generate_new_ids [⟨1, "Widget", ""⟩] element_pfx = [(1, "GEN-001")]) :=
  claim9_total_gen_fallback "Widget" "" (by decide)

/-- C10: the export header consists of the two fixed leading columns
(element identifier, element type) followed by all remaining column names
in sorted order, and one row per element is written, each row covering
every column. -/
theorem claim10_export_table (keys guids : List String)
    (dataOf : String → List (String × String)) :
    (sortedColumns keys).take 2 = fixedColumns ∧
    List.Sorted (· ≤ ·) ((sortedColumns keys).drop 2) ∧
    ((sortedColumns keys).drop 2).Perm
      ((allColumns keys).filter (fun c => decide (c ∉ fixedColumns))) ∧
    (csvRows guids (sortedColumns keys) dataOf).length = guids.length ∧
    ∀ row ∈ csvRows guids (sortedColumns keys) dataOf,
      row.length = (sortedColumns keys).length := by
  refine ⟨rfl, ?_, ?_, by simp [csvRows], ?_⟩
  · exact List.sorted_insertionSort _ _
  · exact List.perm_insertionSort _ _
  · intro row hrow
    obtain ⟨g, -, rfl⟩ := List.mem_map.mp hrow
    exact List.length_map _ _

end ArchUniX
